import Mathlib

/-!
Verification of the ChatPulse incremental ingestion core.

This file gives a shallow embedding of the repository's ingestion engine:

* `dateConvert.ts` — the timestamp normalizer (`appleToUnix`, `unixToApple`,
  `appleToDate`, `dateToApple`).  JavaScript numeric arithmetic is modelled
  over exact rationals `ℚ`; a JavaScript `Date` is modelled as the rational
  number of Unix seconds it denotes.
* `watermark.ts` — the singleton watermark row (`getWatermark`,
  `updateWatermark`).
* `server/services/ingest.ts` — `ingestFromChatDb`: the chat.db source is a
  record of tables (lists of rows), the PostgreSQL destination is a record of
  tables plus the watermark; the single destination transaction is modelled
  by a connection holding a committed state and an optional in-transaction
  state, with `BEGIN` / `COMMIT` / `ROLLBACK` made explicit.  A possible
  exception raised by any write statement before `COMMIT` is modelled by an
  optional fault index `failAt`: the write at that index raises, the catch
  block rolls back and rethrows.
-/

namespace ChatPulse

/-! ### Timestamp normalizer (`dateConvert.ts`) -/

/-- Seconds between the Unix epoch (1970-01-01) and the Apple epoch
(2001-01-01). -/
def APPLE_EPOCH_OFFSET : ℚ := 978307200

/-- Threshold distinguishing nanosecond timestamps from second timestamps. -/
def NANO_THRESHOLD : ℚ := 1000000000000

/-- Source: `isNanoseconds` — `Math.abs(appleTimestamp) > NANO_THRESHOLD`. -/
def isNanoseconds (appleTimestamp : ℚ) : Bool :=
  decide (NANO_THRESHOLD < |appleTimestamp|)

/-- Source: `normaliseToSeconds` — divide by `1e9` when in nanoseconds. -/
def normaliseToSeconds (appleTimestamp : ℚ) : ℚ :=
  if isNanoseconds appleTimestamp then appleTimestamp / 1000000000
  else appleTimestamp

/-- Source: `appleToUnix` — normalise to seconds, then add the epoch offset. -/
def appleToUnix (appleTimestamp : ℚ) : ℚ :=
  normaliseToSeconds appleTimestamp + APPLE_EPOCH_OFFSET

/-- Source: `unixToApple` — subtract the offset, re-encode as nanoseconds. -/
def unixToApple (unixTimestamp : ℚ) : ℚ :=
  (unixTimestamp - APPLE_EPOCH_OFFSET) * 1000000000

/-- Source: `appleToDate` — `new Date(appleToUnix(t) * 1000)`; a `Date` is
modelled as its instant in Unix seconds. -/
def appleToDate (appleTimestamp : ℚ) : ℚ :=
  appleToUnix appleTimestamp

/-- Source: `dateToApple` — `unixToApple(date.getTime() / 1000)`. -/
def dateToApple (date : ℚ) : ℚ :=
  unixToApple date

/-! ### IEEE-754 binary64 semantics of the normalizer

JavaScript numbers are IEEE-754 binary64 doubles; each arithmetic operation
rounds its exact result to the nearest double (ties to even).  The value set
of finite normal doubles is a set of rationals, so double arithmetic is
modelled as exact rational arithmetic followed by `roundDouble`.  The model
covers the normal finite range (no overflow or subnormal handling), which
contains every magnitude appearing in the timestamp pipeline. -/

/-- Round a rational to the nearest integer, ties to even. -/
def roundNearestEven (x : ℚ) : ℤ :=
  if x - ⌊x⌋ < 1/2 then ⌊x⌋
  else if 1/2 < x - ⌊x⌋ then ⌊x⌋ + 1
  else if Even ⌊x⌋ then ⌊x⌋ else ⌊x⌋ + 1

/-- The value of the IEEE-754 binary64 double nearest to `q` (round to
nearest, ties to even): the significand is `q` scaled into `[2^52, 2^53)`
and rounded to an integer. -/
def roundDouble (q : ℚ) : ℚ :=
  if q = 0 then 0
  else (roundNearestEven (q / 2 ^ (Int.log 2 |q| - 52)) : ℚ) *
    2 ^ (Int.log 2 |q| - 52)

/-- JavaScript `+` on doubles: correctly rounded rational addition. -/
def fadd (a b : ℚ) : ℚ := roundDouble (a + b)

/-- JavaScript `-` on doubles. -/
def fsub (a b : ℚ) : ℚ := roundDouble (a - b)

/-- JavaScript `*` on doubles. -/
def fmul (a b : ℚ) : ℚ := roundDouble (a * b)

/-- JavaScript `/` on doubles. -/
def fdiv (a b : ℚ) : ℚ := roundDouble (a / b)

/-- Source: `normaliseToSeconds` under binary64 arithmetic — the division by
`1e9` rounds to the nearest double.  (The `isNanoseconds` comparison is
exact on doubles.) -/
def fpNormaliseToSeconds (appleTimestamp : ℚ) : ℚ :=
  if isNanoseconds appleTimestamp then fdiv appleTimestamp 1000000000
  else appleTimestamp

/-- Source: `appleToUnix` under binary64 arithmetic. -/
def fpAppleToUnix (appleTimestamp : ℚ) : ℚ :=
  fadd (fpNormaliseToSeconds appleTimestamp) APPLE_EPOCH_OFFSET

/-- Source: `unixToApple` under binary64 arithmetic. -/
def fpUnixToApple (unixTimestamp : ℚ) : ℚ :=
  fmul (fsub unixTimestamp APPLE_EPOCH_OFFSET) 1000000000

/-! ### chat.db source rows (`ingest.ts` row interfaces) -/

/-- One row of chat.db's `message` table as read by the ingest query. -/
structure ChatDbMessage where
  ROWID : Int
  guid : String
  text : Option String
  handle_id : Int
  date : ℚ
  date_read : ℚ
  date_delivered : ℚ
  is_from_me : Int
  cache_has_attachments : Int
  associated_message_type : Int
  service : Option String
deriving DecidableEq

/-- One row of chat.db's `handle` table. -/
structure ChatDbHandle where
  ROWID : Int
  id : String
  service : Option String
  uncanonicalized_id : Option String
deriving DecidableEq

/-- One row of chat.db's `chat` table. -/
structure ChatDbChat where
  ROWID : Int
  guid : String
  chat_identifier : String
  display_name : Option String
  service_name : Option String
  group_id : Option String
deriving DecidableEq

/-- One row of chat.db's `chat_handle_join` table. -/
structure ChatDbChatHandleJoin where
  chat_id : Int
  handle_id : Int
deriving DecidableEq

/-- One row of chat.db's `chat_message_join` table. -/
structure ChatDbChatMessageJoin where
  chat_id : Int
  message_id : Int
deriving DecidableEq

/-- The read-only chat.db snapshot: the five tables the ingest reads. -/
structure ChatDb where
  messages : List ChatDbMessage
  handles : List ChatDbHandle
  chats : List ChatDbChat
  chat_handle_join : List ChatDbChatHandleJoin
  chat_message_join : List ChatDbChatMessageJoin
deriving DecidableEq

/-! ### PostgreSQL destination rows (schema of the archive)

Columns that the ingest pipeline never writes and whose value in a row
created by this pipeline is always the SQL default (`display_name` on
`handles`, `is_group` on `chats`) are kept, because `ON CONFLICT DO UPDATE`
leaves them untouched while a fresh insert sets the default.  Columns that
are defaulted and invisible to every claim (`ingested_at`,
`associated_message_guid`, `cache_roomnames`, the `attachments` table) are
omitted.

The schema's other constraints (the foreign key from `messages.handle_id`
to `handles.original_rowid`, `NOT NULL` on `handles.service`, uniqueness of
guids) make a violating statement raise an exception; such exceptions are
covered by the fault model below (`failAt`), which lets any statement of the
transaction fail.  Concrete committed-run inputs in this file are chosen to
satisfy all of these constraints, so their fault-free traces are the real
ones. -/

/-- One row of the archive's `handles` table. -/
structure PgHandle where
  original_rowid : Int
  identifier : String
  service : Option String
  uncanonicalized_id : Option String
  display_name : Option String
deriving DecidableEq

/-- One row of the archive's `chats` table. -/
structure PgChat where
  original_rowid : Int
  guid : String
  chat_identifier : String
  display_name : Option String
  service_name : Option String
  group_id : Option String
  is_group : Bool
deriving DecidableEq

/-- One row of the archive's `messages` table. -/
structure PgMessage where
  original_rowid : Int
  guid : String
  text : Option String
  handle_id : Int
  date : ℚ
  date_read : Option ℚ
  date_delivered : Option ℚ
  is_from_me : Bool
  has_attachments : Bool
  associated_message_type : Option Int
  service : Option String
deriving DecidableEq

/-- The singleton `ingest_watermark` row (`watermark.ts`).  `updated_at` is
wall-clock bookkeeping and not modelled. -/
structure Watermark where
  lastMessageDate : ℚ
  lastRowid : Int
deriving DecidableEq

/-- The PostgreSQL archive state: five tables plus the optional watermark
row. -/
structure PgDb where
  handles : List PgHandle
  chats : List PgChat
  messages : List PgMessage
  chat_handle_join : List (Int × Int)
  chat_message_join : List (Int × Int)
  ingest_watermark : Option Watermark
deriving DecidableEq

/-- Source: `getWatermark` (`watermark.ts`) — returns `null` only when no
watermark row exists. -/
def getWatermark (db : PgDb) : Option Watermark :=
  db.ingest_watermark

/-- Source: `updateWatermark` (`watermark.ts`) — `INSERT ... ON CONFLICT (id)
DO UPDATE`: creates or overwrites the singleton row. -/
def updateWatermark (db : PgDb) (date : ℚ) (rowid : Int) : PgDb :=
  { db with ingest_watermark := some ⟨date, rowid⟩ }

/-! ### The SQL write statements of the transaction body -/

/-- Conversion of a chat.db message row into the archive row inserted by the
`INSERT INTO messages` statement: dates converted by `appleToDate`, zero
(JavaScript-falsy) `date_read` / `date_delivered` / `associated_message_type`
mapped to SQL `NULL`, flags compared against `1`. -/
def toPgMessage (m : ChatDbMessage) : PgMessage :=
  { original_rowid := m.ROWID
    guid := m.guid
    text := m.text
    handle_id := m.handle_id
    date := appleToDate m.date
    date_read := if m.date_read = 0 then none else some (appleToDate m.date_read)
    date_delivered :=
      if m.date_delivered = 0 then none else some (appleToDate m.date_delivered)
    is_from_me := m.is_from_me == 1
    has_attachments := m.cache_has_attachments == 1
    associated_message_type :=
      if m.associated_message_type = 0 then none else some m.associated_message_type
    service := m.service }

/-- Source: `INSERT INTO handles ... ON CONFLICT (original_rowid) DO UPDATE
SET identifier, service, uncanonicalized_id`.  An insert leaves
`display_name` at its default; an update leaves it untouched. -/
def upsertHandle (db : PgDb) (h : ChatDbHandle) : PgDb :=
  if db.handles.any (fun r => r.original_rowid == h.ROWID) then
    { db with handles := db.handles.map (fun r =>
        if r.original_rowid == h.ROWID then
          { r with identifier := h.id, service := h.service,
                   uncanonicalized_id := h.uncanonicalized_id }
        else r) }
  else
    { db with handles :=
        db.handles ++ [⟨h.ROWID, h.id, h.service, h.uncanonicalized_id, none⟩] }

/-- Source: `INSERT INTO chats ... ON CONFLICT (original_rowid) DO UPDATE SET
guid, chat_identifier, display_name, service_name, group_id`. -/
def upsertChat (db : PgDb) (c : ChatDbChat) : PgDb :=
  if db.chats.any (fun r => r.original_rowid == c.ROWID) then
    { db with chats := db.chats.map (fun r =>
        if r.original_rowid == c.ROWID then
          { r with guid := c.guid, chat_identifier := c.chat_identifier,
                   display_name := c.display_name,
                   service_name := c.service_name, group_id := c.group_id }
        else r) }
  else
    { db with chats := db.chats ++
        [⟨c.ROWID, c.guid, c.chat_identifier, c.display_name, c.service_name,
          c.group_id, false⟩] }

/-- Source: `INSERT INTO messages ... ON CONFLICT (original_rowid) DO
NOTHING`. -/
def insertMessage (db : PgDb) (m : ChatDbMessage) : PgDb :=
  if db.messages.any (fun r => r.original_rowid == m.ROWID) then db
  else { db with messages := db.messages ++ [toPgMessage m] }

/-- Source: `INSERT INTO chat_handle_join ... ON CONFLICT (chat_id,
handle_id) DO NOTHING`. -/
def insertChatHandleJoin (db : PgDb) (j : ChatDbChatHandleJoin) : PgDb :=
  if db.chat_handle_join.any (fun r => r == (j.chat_id, j.handle_id)) then db
  else { db with chat_handle_join := db.chat_handle_join ++ [(j.chat_id, j.handle_id)] }

/-- Source: `INSERT INTO chat_message_join ... ON CONFLICT (chat_id,
message_id) DO NOTHING`. -/
def insertChatMessageJoin (db : PgDb) (j : ChatDbChatMessageJoin) : PgDb :=
  if db.chat_message_join.any (fun r => r == (j.chat_id, j.message_id)) then db
  else { db with chat_message_join := db.chat_message_join ++ [(j.chat_id, j.message_id)] }

/-- One parameterised SQL write statement issued inside the transaction. -/
inductive WriteOp where
  | upsertHandle (h : ChatDbHandle)
  | upsertChat (c : ChatDbChat)
  | insertMessage (m : ChatDbMessage)
  | insertChatHandleJoin (j : ChatDbChatHandleJoin)
  | insertChatMessageJoin (j : ChatDbChatMessageJoin)
  | setWatermark (date : ℚ) (rowid : Int)
deriving DecidableEq

/-- Effect of one write statement on a database state. -/
def applyOp (db : PgDb) : WriteOp → PgDb
  | .upsertHandle h => upsertHandle db h
  | .upsertChat c => upsertChat db c
  | .insertMessage m => insertMessage db m
  | .insertChatHandleJoin j => insertChatHandleJoin db j
  | .insertChatMessageJoin j => insertChatMessageJoin db j
  | .setWatermark d r => updateWatermark db d r

/-! ### Transactional connection -/

/-- A PostgreSQL connection: the committed database state, plus the state as
seen inside an open transaction (`none` when no transaction is open). -/
structure Conn where
  committed : PgDb
  txn : Option PgDb
deriving DecidableEq

/-- Source: `client.query('BEGIN')`. -/
def Conn.begin (c : Conn) : Conn :=
  { c with txn := some c.committed }

/-- A write statement executes against the in-transaction state; writes are
not visible in the committed state until `COMMIT`. -/
def Conn.write (c : Conn) (op : WriteOp) : Conn :=
  { c with txn := c.txn.map (fun db => applyOp db op) }

/-- Source: `client.query('COMMIT')` — the in-transaction state becomes the
committed state. -/
def Conn.commit (c : Conn) : Conn :=
  { committed := c.txn.getD c.committed, txn := none }

/-- Source: `client.query('ROLLBACK')` — the in-transaction state is
discarded. -/
def Conn.rollback (c : Conn) : Conn :=
  { c with txn := none }

/-- An error surfaced by a failed SQL statement (rethrown by the catch block
after `ROLLBACK`). -/
inductive IngestError where
  | queryFailed
deriving DecidableEq

/-- Execute the transaction's write statements in order.  `i` is the index of
the next statement; if `failAt = some k` the `k`-th statement raises instead
of executing, and the connection at that point is returned in the error. -/
def runOps (ops : List WriteOp) (c : Conn) (i : Nat) (failAt : Option Nat) :
    Except Conn Conn :=
  match ops with
  | [] => .ok c
  | op :: rest =>
      if failAt = some i then .error c
      else runOps rest (c.write op) (i + 1) failAt

/-! ### The read phase of `ingestFromChatDb` -/

/-- Ordering used by the source query's `ORDER BY date ASC`. -/
def dateLe (a b : ChatDbMessage) : Prop :=
  a.date ≤ b.date

instance : DecidableRel dateLe :=
  fun a b => inferInstanceAs (Decidable (a.date ≤ b.date))

instance : IsTotal ChatDbMessage dateLe :=
  ⟨fun a b => le_total a.date b.date⟩

instance : IsTrans ChatDbMessage dateLe :=
  ⟨fun _ _ _ hab hbc => le_trans hab hbc⟩

/-- Source: the watermark translated to the source domain —
`watermark ? dateToApple(watermark.lastMessageDate) : 0`. -/
def appleWatermark (db : PgDb) : ℚ :=
  match getWatermark db with
  | some w => dateToApple w.lastMessageDate
  | none => 0

/-- Source: `SELECT ... FROM message WHERE date > ? ORDER BY date ASC`. -/
def queryNewMessages (src : ChatDb) (w : ℚ) : List ChatDbMessage :=
  List.insertionSort dateLe (src.messages.filter (fun m => decide (w < m.date)))

/-- The batch of new messages for one run. -/
def newMessages (src : ChatDb) (dst : PgDb) : List ChatDbMessage :=
  queryNewMessages src (appleWatermark dst)

/-- Source: `[...new Set(messages.map(m => m.handle_id).filter(id => id >
0))]` — the distinct referenced handle ids.  Only membership in this list is
ever used, so the deduplication order is irrelevant. -/
def relatedHandleIds (msgs : List ChatDbMessage) : List Int :=
  ((msgs.map (fun m => m.handle_id)).filter (fun i => decide (0 < i))).dedup

/-- Source: `SELECT ... FROM handle WHERE ROWID IN (...)`. -/
def batchHandles (src : ChatDb) (dst : PgDb) : List ChatDbHandle :=
  src.handles.filter (fun h => (relatedHandleIds (newMessages src dst)).contains h.ROWID)

/-- Source: `SELECT chat_id, message_id FROM chat_message_join WHERE
message_id IN (...)`. -/
def batchChatMessageJoins (src : ChatDb) (dst : PgDb) : List ChatDbChatMessageJoin :=
  src.chat_message_join.filter
    (fun j => ((newMessages src dst).map (fun m => m.ROWID)).contains j.message_id)

/-- Source: `[...new Set(chatMessageJoins.map(j => j.chat_id))]`. -/
def batchChatIds (src : ChatDb) (dst : PgDb) : List Int :=
  ((batchChatMessageJoins src dst).map (fun j => j.chat_id)).dedup

/-- Source: `SELECT ... FROM chat WHERE ROWID IN (...)`. -/
def batchChats (src : ChatDb) (dst : PgDb) : List ChatDbChat :=
  src.chats.filter (fun c => (batchChatIds src dst).contains c.ROWID)

/-- Source: `SELECT chat_id, handle_id FROM chat_handle_join WHERE chat_id IN
(...)`. -/
def batchChatHandleJoins (src : ChatDb) (dst : PgDb) : List ChatDbChatHandleJoin :=
  src.chat_handle_join.filter (fun j => (batchChatIds src dst).contains j.chat_id)

/-- All write statements of the transaction, in program order: upsert
handles, upsert chats, insert messages, insert the two kinds of join rows,
and finally `updateWatermark` with the date and ROWID of the last (highest
`date`) message of the batch. -/
def ingestOps (src : ChatDb) (dst : PgDb) : List WriteOp :=
  match (newMessages src dst).getLast? with
  | none => []
  | some lastMessage =>
      (batchHandles src dst).map .upsertHandle ++
      (batchChats src dst).map .upsertChat ++
      (newMessages src dst).map .insertMessage ++
      (batchChatHandleJoins src dst).map .insertChatHandleJoin ++
      (batchChatMessageJoins src dst).map .insertChatMessageJoin ++
      [.setWatermark (appleToDate lastMessage.date) lastMessage.ROWID]

/-- Source: `IngestResult` — the summary returned after a successful run. -/
structure IngestResult where
  messagesIngested : Nat
  handlesUpserted : Nat
  chatsUpserted : Nat
  highWatermark : Option ℚ
deriving DecidableEq

/-- Source: `ingestFromChatDb` (`server/services/ingest.ts`).

Reads the watermark, fetches the batch of newer messages and their related
rows, and applies them in one transaction; the pair returned is the committed
destination state after the run together with the run's outcome.  If the
batch is empty, no transaction is opened and the summary reports zero counts
and the prior watermark.  Otherwise the write statements `ingestOps` execute
inside `BEGIN` ... `COMMIT`; if the statement at index `failAt` raises, the
catch block rolls the transaction back and rethrows.  The counts in the
summary are the loop counters of the source: one increment per fetched row,
unconditionally. -/
def ingestFromChatDb (src : ChatDb) (dst : PgDb) (failAt : Option Nat) :
    PgDb × Except IngestError IngestResult :=
  match (newMessages src dst).getLast? with
  | none =>
      (dst, .ok ⟨0, 0, 0, (getWatermark dst).map (fun w => w.lastMessageDate)⟩)
  | some lastMessage =>
      match runOps (ingestOps src dst) (Conn.begin ⟨dst, none⟩) 0 failAt with
      | .error c => ((c.rollback).committed, .error .queryFailed)
      | .ok c =>
          ((c.commit).committed,
            .ok ⟨(newMessages src dst).length, (batchHandles src dst).length,
              (batchChats src dst).length, some (appleToDate lastMessage.date)⟩)

/-! ### Lookup by natural key -/

/-- Lookup of an archived handle row by its natural key. -/
def findHandle (db : PgDb) (k : Int) : Option PgHandle :=
  db.handles.find? (fun r => r.original_rowid == k)

/-- Lookup of an archived message row by its natural key. -/
def findMessage (db : PgDb) (k : Int) : Option PgMessage :=
  db.messages.find? (fun r => r.original_rowid == k)

/-- The value of a handle row after `upsertHandle` hit it: an existing row
keeps its key and `display_name`, the mutable attributes are refreshed; a
missing row is created from the source values. -/
def upsertedHandleRow (old : Option PgHandle) (h : ChatDbHandle) : PgHandle :=
  match old with
  | some r => { r with identifier := h.id, service := h.service,
                       uncanonicalized_id := h.uncanonicalized_id }
  | none => ⟨h.ROWID, h.id, h.service, h.uncanonicalized_id, none⟩

/-- Effect of a list of write statements on a database state. -/
def applyOps (db : PgDb) (ops : List WriteOp) : PgDb :=
  ops.foldl applyOp db

/-! ### Concrete fixtures

Every fixture on which a run commits respects the destination schema's
constraints, so the modelled trace is the real one: each message row carries
a positive `handle_id` whose handle is present in the source snapshot and is
upserted before the message insert (satisfying the `messages.handle_id`
foreign key to `handles.original_rowid`), and every handle row — in the
source and the archive alike — carries a non-null `service` (satisfying
`handles.service TEXT NOT NULL`). -/

/-- An empty archive: no rows, no watermark. -/
def pgEmpty : PgDb := ⟨[], [], [], [], [], none⟩

/-- A chat.db message row whose remaining fields are zero/null. -/
def mkMsg (rowid : Int) (g : String) (hid : Int) (d : ℚ) : ChatDbMessage :=
  ⟨rowid, g, none, hid, d, 0, 0, 0, 0, 0, none⟩

def wHandle3 : ChatDbHandle := ⟨1, "h3", some "iMessage", none⟩

def wMsg3 : ChatDbMessage := mkMsg 1 "w3" 1 1

def wSrc3 : ChatDb := ⟨[wMsg3], [wHandle3], [], [], []⟩

def wDst4 : PgDb := ⟨[], [], [], [], [], some ⟨978307200, 1⟩⟩

def wMsg5 : ChatDbMessage := mkMsg 1 "w5" 0 (-1)

def wSrc5 : ChatDb := ⟨[wMsg5], [], [], [], []⟩

def wHandle6 : ChatDbHandle := ⟨4, "h6", some "SMS", none⟩

def wMsgA6 : ChatDbMessage := mkMsg 2 "a6" 4 2

def wMsgB6 : ChatDbMessage := mkMsg 1 "b6" 4 1

def wSrc6 : ChatDb := ⟨[wMsgA6, wMsgB6], [wHandle6], [], [], []⟩

def wHandle7 : ChatDbHandle := ⟨5, "b", some "iMessage", none⟩

def wMsg7 : ChatDbMessage := mkMsg 2 "w7" 5 5

def wSrc7 : ChatDb := ⟨[wMsg7], [wHandle7], [], [], []⟩

def wDst7 : PgDb := ⟨[⟨5, "a", some "iMessage", none, none⟩], [], [], [], [], none⟩

def wHandle8 : ChatDbHandle := ⟨1, "h8", some "iMessage", none⟩

def wPgMsg8 : PgMessage :=
  ⟨1, "old", none, 1, 42, none, none, false, false, none, none⟩

def wDst8 : PgDb := ⟨[⟨1, "h8", some "iMessage", none, none⟩], [], [wPgMsg8], [], [], none⟩

def wMsg8 : ChatDbMessage := mkMsg 1 "new" 1 5

def wSrc8 : ChatDb := ⟨[wMsg8], [wHandle8], [], [], []⟩

def wHandle10 : ChatDbHandle := ⟨2, "h10", some "iMessage", none⟩

def wMsgZero10 : ChatDbMessage := mkMsg 1 "z10" 2 0

def wMsgNeg10 : ChatDbMessage := mkMsg 2 "n10" 2 (-5)

def wMsgPos10 : ChatDbMessage := mkMsg 3 "p10" 2 3

def wSrc10 : ChatDb := ⟨[wMsgZero10, wMsgNeg10, wMsgPos10], [wHandle10], [], [], []⟩

def cexHandle : ChatDbHandle := ⟨9, "alice", some "iMessage", none⟩

def cexMsgA : ChatDbMessage := mkMsg 50 "cexa" 9 2000000000000

def cexMsgB : ChatDbMessage := mkMsg 7 "cexb" 9 3000000000000

def cexSrc1 : ChatDb := ⟨[cexMsgA], [cexHandle], [], [], []⟩

def cexSrc2 : ChatDb := ⟨[cexMsgA, cexMsgB], [cexHandle], [], [], []⟩

/-! ### Theorems: timestamp normalizer -/

theorem isNanoseconds_true {t : ℚ} (h : NANO_THRESHOLD < |t|) :
    isNanoseconds t = true := by
  simpa [isNanoseconds] using h

theorem isNanoseconds_false {t : ℚ} (h : ¬ NANO_THRESHOLD < |t|) :
    isNanoseconds t = false := by
  simpa [isNanoseconds] using h

/-! #### Evaluation of `roundDouble` at the concrete pipeline values -/

theorem roundNearestEven_of_lt_half (x : ℚ) (n : ℤ) (h1 : (n:ℚ) ≤ x)
    (h2 : x < n + 1/2) : roundNearestEven x = n := by
  have hf : ⌊x⌋ = n := Int.floor_eq_iff.mpr ⟨h1, by linarith⟩
  simp only [roundNearestEven, hf]
  rw [if_pos (by linarith)]

theorem roundNearestEven_intCast (n : ℤ) : roundNearestEven (n : ℚ) = n :=
  roundNearestEven_of_lt_half _ n (le_refl _) (by norm_num)

theorem roundDouble_eval (q p : ℚ) (k n : ℤ) (hq : q ≠ 0)
    (hlow : ((2:ℕ):ℚ) ^ k ≤ |q|) (hhigh : |q| < ((2:ℕ):ℚ) ^ (k + 1))
    (hp : (2:ℚ) ^ (k - 52) = p) (hne : roundNearestEven (q / p) = n) :
    roundDouble q = n * p := by
  have hr : (0:ℚ) < |q| := abs_pos.mpr hq
  have hlog : Int.log 2 |q| = k := by
    have h1 : k ≤ Int.log 2 |q| := (Int.zpow_le_iff_le_log (by norm_num) hr).mp hlow
    have h2 : Int.log 2 |q| < k + 1 := (Int.lt_zpow_iff_log_lt (by norm_num) hr).mp hhigh
    omega
  rw [roundDouble, if_neg hq, hlog, hp, hne]

/-- An integer whose significand fits in 53 bits is its own nearest
double. -/
theorem roundDouble_intCast (m k j : ℤ) (hm : (m:ℚ) ≠ 0)
    (hlow : ((2:ℕ):ℚ) ^ k ≤ |(m:ℚ)|) (hhigh : |(m:ℚ)| < ((2:ℕ):ℚ) ^ (k + 1))
    (hj : (m:ℚ) / 2 ^ (k - 52) = (j:ℚ)) :
    roundDouble (m:ℚ) = m := by
  have hz : ((2:ℚ) ^ (k - 52)) ≠ 0 := zpow_ne_zero _ (by norm_num)
  have h := roundDouble_eval (m:ℚ) (2 ^ (k - 52)) k j hm hlow hhigh rfl
    (by rw [hj]; exact roundNearestEven_intCast j)
  rw [h, ← hj, div_mul_cancel₀ _ hz]

theorem rd_id_978307200 : roundDouble 978307200 = 978307200 := by
  have h := roundDouble_intCast 978307200 29 (978307200 * 8388608)
    (by norm_num) (by norm_num) (by norm_num) (by push_cast; norm_num)
  exact_mod_cast h

theorem rd_id_727012800 : roundDouble 727012800 = 727012800 := by
  have h := roundDouble_intCast 727012800 29 (727012800 * 8388608)
    (by norm_num) (by norm_num) (by norm_num) (by push_cast; norm_num)
  exact_mod_cast h

theorem rd_id_1705320000 : roundDouble 1705320000 = 1705320000 := by
  have h := roundDouble_intCast 1705320000 30 (1705320000 * 4194304)
    (by norm_num) (by norm_num) (by norm_num) (by push_cast; norm_num)
  exact_mod_cast h

theorem rd_id_nanos : roundDouble 727012800000000000 = 727012800000000000 := by
  have h := roundDouble_intCast 727012800000000000 59 5679787500000000
    (by norm_num) (by norm_num) (by norm_num) (by push_cast; norm_num)
  exact_mod_cast h

theorem rd_id_1000 : roundDouble 1000 = 1000 := by
  have h := roundDouble_intCast 1000 9 (1000 * 8796093022208)
    (by norm_num) (by norm_num) (by norm_num) (by push_cast; norm_num)
  exact_mod_cast h

theorem rd_id_1e12 : roundDouble 1000000000000 = 1000000000000 := by
  have h := roundDouble_intCast 1000000000000 39 (1000000000000 * 8192)
    (by norm_num) (by norm_num) (by norm_num) (by push_cast; norm_num)
  exact_mod_cast h

theorem rd_zero : roundDouble 0 = 0 := by
  simp [roundDouble]

/-- The double quotient `(10^12 + 1) / 1e9`: the exact value scaled by
`2^43` is `8796093022216796.09...`, rounding down. -/
theorem rd_div_threshold_succ :
    roundDouble ((1000000000001 : ℚ) / 1000000000) =
      8796093022216796 / 8796093022208 := by
  have h := roundDouble_eval ((1000000000001 : ℚ) / 1000000000)
    (1 / 8796093022208) 9 8796093022216796
    (by norm_num) (by rw [abs_of_pos] <;> norm_num)
    (by rw [abs_of_pos] <;> norm_num) (by norm_num)
    (roundNearestEven_of_lt_half _ _ (by norm_num) (by norm_num))
  rw [h]
  norm_num

/-- Adding the epoch offset to that quotient: the `10^-9`-sized fraction is
far below the half-ulp `2^-24` at magnitude `9.8 · 10^8`, so the sum rounds
to exactly `978308200`. -/
theorem rd_sum_threshold_succ :
    roundDouble ((8796093022216796 : ℚ) / 8796093022208 + 978307200) =
      978308200 := by
  have h := roundDouble_eval ((8796093022216796 : ℚ) / 8796093022208 + 978307200)
    (1 / 8388608) 29 (978308200 * 8388608)
    (by norm_num) (by rw [abs_of_pos] <;> norm_num)
    (by rw [abs_of_pos] <;> norm_num) (by norm_num)
    (roundNearestEven_of_lt_half _ _ (by push_cast; norm_num) (by push_cast; norm_num))
  rw [h]
  push_cast
  norm_num

/-- C1 (amended): under the program’s IEEE-754 double arithmetic, raw `0`
maps to the instant 2001-01-01T00:00:00Z (Unix second `978307200`) and raw
`727012800000000000` maps to 2024-01-15T12:00:00Z (Unix second
`1705320000`), and both round-trip exactly — every intermediate value of
their conversion chains is exactly representable.  The universal
nanosecond-domain round trip of the original claim fails in double
arithmetic; see the counterexample at `10^12 + 1`. -/
theorem fpAppleRoundTrip_examples :
    fpAppleToUnix 0 = 978307200 ∧
    fpUnixToApple (fpAppleToUnix 0) = 0 ∧
    fpAppleToUnix 727012800000000000 = 1705320000 ∧
    fpUnixToApple (fpAppleToUnix 727012800000000000) = 727012800000000000 := by
  have hn0 : isNanoseconds 0 = false := by
    norm_num [isNanoseconds, NANO_THRESHOLD]
  have hnN : isNanoseconds 727012800000000000 = true := by
    norm_num [isNanoseconds, NANO_THRESHOLD]
  have h1 : fpAppleToUnix 0 = 978307200 := by
    rw [fpAppleToUnix, fpNormaliseToSeconds, hn0]
    simp only [Bool.false_eq_true, if_false, fadd, APPLE_EPOCH_OFFSET]
    rw [show (0:ℚ) + 978307200 = 978307200 from by norm_num]
    exact rd_id_978307200
  have h2 : fpUnixToApple 978307200 = 0 := by
    rw [fpUnixToApple, fsub, APPLE_EPOCH_OFFSET]
    rw [show (978307200:ℚ) - 978307200 = 0 from by norm_num, rd_zero, fmul]
    rw [show (0:ℚ) * 1000000000 = 0 from by norm_num]
    exact rd_zero
  have h3 : fpAppleToUnix 727012800000000000 = 1705320000 := by
    rw [fpAppleToUnix, fpNormaliseToSeconds, hnN, if_pos rfl, fdiv]
    rw [show (727012800000000000:ℚ) / 1000000000 = 727012800 from by norm_num]
    rw [rd_id_727012800, fadd, APPLE_EPOCH_OFFSET]
    rw [show (727012800:ℚ) + 978307200 = 1705320000 from by norm_num]
    exact rd_id_1705320000
  have h4 : fpUnixToApple 1705320000 = 727012800000000000 := by
    rw [fpUnixToApple, fsub, APPLE_EPOCH_OFFSET]
    rw [show (1705320000:ℚ) - 978307200 = 727012800 from by norm_num]
    rw [rd_id_727012800, fmul]
    rw [show (727012800:ℚ) * 1000000000 = 727012800000000000 from by norm_num]
    exact rd_id_nanos
  exact ⟨h1, h1 ▸ h2, h3, h3 ▸ h4⟩

/-- Counterexample to C1 as stated: `x = 10^12 + 1` lies in the nanosecond
domain, but in the program’s double arithmetic the division by `1e9`
followed by adding `978307200` rounds to exactly `978308200`, so converting
back yields `10^12`, not `x`: the universal round-trip identity fails.
(The repository’s own test file checks this region with `toBeCloseTo`
rather than exact equality.) -/
theorem appleRoundTrip_counterexample :
    10 ^ 12 < |(10 ^ 12 + 1 : ℚ)| ∧
    fpUnixToApple (fpAppleToUnix (10 ^ 12 + 1)) = 10 ^ 12 ∧
    (10 ^ 12 : ℚ) ≠ 10 ^ 12 + 1 := by
  have hn : isNanoseconds (10 ^ 12 + 1) = true := by
    norm_num [isNanoseconds, NANO_THRESHOLD]
  have h1 : fpAppleToUnix (10 ^ 12 + 1) = 978308200 := by
    rw [fpAppleToUnix, fpNormaliseToSeconds, hn, if_pos rfl, fdiv]
    rw [show ((10:ℚ) ^ 12 + 1) / 1000000000 = (1000000000001 : ℚ) / 1000000000
      from by norm_num]
    rw [rd_div_threshold_succ, fadd, APPLE_EPOCH_OFFSET]
    exact rd_sum_threshold_succ
  have h2 : fpUnixToApple 978308200 = 10 ^ 12 := by
    rw [fpUnixToApple, fsub, APPLE_EPOCH_OFFSET]
    rw [show (978308200:ℚ) - 978307200 = 1000 from by norm_num]
    rw [rd_id_1000, fmul]
    rw [show (1000:ℚ) * 1000000000 = 1000000000000 from by norm_num]
    rw [rd_id_1e12]
    norm_num
  refine ⟨by norm_num, h1 ▸ h2, by norm_num⟩

/-- C2: for every raw input, `appleToUnix` returns `raw / 10^9 + 978307200`
when `|raw| > 10^12` and `raw + 978307200` otherwise; in particular a raw
value exactly equal to `10^12` is treated as seconds and a raw value of
`10^12 + 1` is treated as nanoseconds. -/
theorem appleToUnix_unit_inference (raw : ℚ) :
    (appleToUnix raw =
      if 10 ^ 12 < |raw| then raw / 10 ^ 9 + 978307200 else raw + 978307200) ∧
    appleToUnix (10 ^ 12) = 10 ^ 12 + 978307200 ∧
    appleToUnix (10 ^ 12 + 1) = (10 ^ 12 + 1) / 10 ^ 9 + 978307200 := by
  refine ⟨?_,
    by norm_num [appleToUnix, normaliseToSeconds, isNanoseconds,
      NANO_THRESHOLD, APPLE_EPOCH_OFFSET],
    by norm_num [appleToUnix, normaliseToSeconds, isNanoseconds,
      NANO_THRESHOLD, APPLE_EPOCH_OFFSET]⟩
  by_cases h : 10 ^ 12 < |raw|
  · have hn : isNanoseconds raw = true := by
      apply isNanoseconds_true
      simpa [NANO_THRESHOLD] using h
    simp [appleToUnix, normaliseToSeconds, hn, APPLE_EPOCH_OFFSET, h]
    norm_num
  · have hn : isNanoseconds raw = false := by
      apply isNanoseconds_false
      simpa [NANO_THRESHOLD] using h
    simp [appleToUnix, normaliseToSeconds, hn, APPLE_EPOCH_OFFSET, h]

/-! ### Connection lemmas -/

theorem Conn.write_committed (c : Conn) (op : WriteOp) :
    (c.write op).committed = c.committed := rfl

theorem runOps_error_committed :
    ∀ (ops : List WriteOp) (c : Conn) (i : Nat) (f : Option Nat) (c' : Conn),
      runOps ops c i f = .error c' → c'.committed = c.committed
  | [], c, i, f, c', h => by simp [runOps] at h
  | op :: rest, c, i, f, c', h => by
      by_cases hf : f = some i
      · simp [runOps, hf] at h
        simp [← h]
      · simp only [runOps, if_neg hf] at h
        exact runOps_error_committed rest (c.write op) (i + 1) f c' h

theorem runOps_ok_eq :
    ∀ (ops : List WriteOp) (c : Conn) (i : Nat) (f : Option Nat) (c' : Conn),
      runOps ops c i f = .ok c' → c' = ops.foldl Conn.write c
  | [], c, i, f, c', h => by simpa [runOps] using h.symm
  | op :: rest, c, i, f, c', h => by
      by_cases hf : f = some i
      · simp [runOps, hf] at h
      · simp only [runOps, if_neg hf] at h
        simpa using runOps_ok_eq rest (c.write op) (i + 1) f c' h

theorem runOps_none :
    ∀ (ops : List WriteOp) (c : Conn) (i : Nat),
      runOps ops c i none = .ok (ops.foldl Conn.write c)
  | [], c, i => by simp [runOps]
  | op :: rest, c, i => by
      simpa [runOps] using runOps_none rest (c.write op) (i + 1)

theorem runOps_fails :
    ∀ (ops : List WriteOp) (c : Conn) (i k : Nat), i ≤ k → k < i + ops.length →
      ∃ c', runOps ops c i (some k) = .error c' ∧ c'.committed = c.committed
  | [], c, i, k, h1, h2 => by simp at h2; omega
  | op :: rest, c, i, k, h1, h2 => by
      by_cases hk : k = i
      · exact ⟨c, by simp [runOps, hk], rfl⟩
      · have h1' : i + 1 ≤ k := by omega
        have h2' : k < (i + 1) + rest.length := by simp at h2; omega
        obtain ⟨c', hrun, hcom⟩ := runOps_fails rest (c.write op) (i + 1) k h1' h2'
        refine ⟨c', ?_, hcom⟩
        simpa [runOps, hk] using hrun

theorem foldl_write_conn :
    ∀ (ops : List WriteOp) (d t : PgDb),
      ops.foldl Conn.write ⟨d, some t⟩ = ⟨d, some (ops.foldl applyOp t)⟩
  | [], d, t => rfl
  | op :: rest, d, t => by
      simpa [Conn.write, applyOp] using foldl_write_conn rest d (applyOp t op)

/-! ### Characterizing the two outcomes of a run -/

/-- An empty batch takes the fast path: untouched destination, zero counts,
prior watermark, for every fault schedule. -/
theorem ingest_empty_eq (src : ChatDb) (dst : PgDb) (f : Option Nat)
    (h : (newMessages src dst).getLast? = none) :
    ingestFromChatDb src dst f =
      (dst, .ok ⟨0, 0, 0, (getWatermark dst).map (fun w => w.lastMessageDate)⟩) := by
  simp [ingestFromChatDb, h]

/-- A fault-free run on a non-empty batch commits the fold of the write
statements and reports the loop counters. -/
theorem ingest_commit_eq (src : ChatDb) (dst : PgDb) {lastMessage : ChatDbMessage}
    (h : (newMessages src dst).getLast? = some lastMessage) :
    ingestFromChatDb src dst none =
      (applyOps dst (ingestOps src dst),
        .ok ⟨(newMessages src dst).length, (batchHandles src dst).length,
          (batchChats src dst).length, some (appleToDate lastMessage.date)⟩) := by
  have hrun := runOps_none (ingestOps src dst) (Conn.begin ⟨dst, none⟩) 0
  have hfold := foldl_write_conn (ingestOps src dst) dst dst
  simp only [ingestFromChatDb, h, hrun, Conn.begin] at *
  simp [hfold, Conn.commit, applyOps]

/-- A fault at any statement index before commit aborts the run and leaves
the committed state untouched. -/
theorem ingest_fault_eq (src : ChatDb) (dst : PgDb) (k : Nat)
    (hk : k < (ingestOps src dst).length) :
    ingestFromChatDb src dst (some k) = (dst, .error .queryFailed) := by
  cases hl : (newMessages src dst).getLast? with
  | none =>
      rw [show ingestOps src dst = [] from by simp [ingestOps, hl]] at hk
      simp at hk
  | some lastMessage =>
      obtain ⟨c', hrun, hcom⟩ :=
        runOps_fails (ingestOps src dst) (Conn.begin ⟨dst, none⟩) 0 k
          (Nat.zero_le k) (by simpa using hk)
      simp only [Conn.begin] at hrun hcom
      simp [ingestFromChatDb, hl, Conn.begin, hrun, Conn.rollback, hcom]

/-! ### The batch -/

theorem mem_newMessages {src : ChatDb} {dst : PgDb} {m : ChatDbMessage} :
    m ∈ newMessages src dst ↔ m ∈ src.messages ∧ appleWatermark dst < m.date := by
  simp [newMessages, queryNewMessages, List.mem_insertionSort, List.mem_filter]

theorem newMessages_sorted (src : ChatDb) (dst : PgDb) :
    List.Sorted dateLe (newMessages src dst) :=
  List.sorted_insertionSort dateLe _

theorem sorted_date_le_getLast :
    ∀ (l : List ChatDbMessage), List.Sorted dateLe l → ∀ h : l ≠ [],
      ∀ m ∈ l, m.date ≤ (l.getLast h).date
  | [], _, h => absurd rfl h
  | [a], _, _ => by
      intro m hm
      simp only [List.mem_singleton] at hm
      simp [hm, List.getLast]
  | a :: b :: t, hs, _ => by
      intro m hm
      rw [List.getLast_cons (by simp)]
      rcases List.mem_cons.mp hm with hma | hmt
      · subst hma
        have hab : dateLe m (( b :: t).getLast (by simp)) :=
          List.rel_of_sorted_cons hs _ (List.getLast_mem (by simp))
        exact hab
      · exact sorted_date_le_getLast (b :: t) hs.of_cons (by simp) m hmt

/-! ### What each write statement leaves untouched -/

theorem upsertHandle_messages (db : PgDb) (h : ChatDbHandle) :
    (upsertHandle db h).messages = db.messages := by
  unfold upsertHandle; split <;> rfl

theorem upsertChat_messages (db : PgDb) (c : ChatDbChat) :
    (upsertChat db c).messages = db.messages := by
  unfold upsertChat; split <;> rfl

theorem insertChatHandleJoin_messages (db : PgDb) (j : ChatDbChatHandleJoin) :
    (insertChatHandleJoin db j).messages = db.messages := by
  unfold insertChatHandleJoin; split <;> rfl

theorem insertChatMessageJoin_messages (db : PgDb) (j : ChatDbChatMessageJoin) :
    (insertChatMessageJoin db j).messages = db.messages := by
  unfold insertChatMessageJoin; split <;> rfl

theorem updateWatermark_messages (db : PgDb) (d : ℚ) (r : Int) :
    (updateWatermark db d r).messages = db.messages := rfl

theorem upsertChat_handles (db : PgDb) (c : ChatDbChat) :
    (upsertChat db c).handles = db.handles := by
  unfold upsertChat; split <;> rfl

theorem insertMessage_handles (db : PgDb) (m : ChatDbMessage) :
    (insertMessage db m).handles = db.handles := by
  unfold insertMessage; split <;> rfl

theorem insertChatHandleJoin_handles (db : PgDb) (j : ChatDbChatHandleJoin) :
    (insertChatHandleJoin db j).handles = db.handles := by
  unfold insertChatHandleJoin; split <;> rfl

theorem insertChatMessageJoin_handles (db : PgDb) (j : ChatDbChatMessageJoin) :
    (insertChatMessageJoin db j).handles = db.handles := by
  unfold insertChatMessageJoin; split <;> rfl

theorem updateWatermark_handles (db : PgDb) (d : ℚ) (r : Int) :
    (updateWatermark db d r).handles = db.handles := rfl

/-! ### Folds over phases of the transaction -/

theorem applyOps_append (db : PgDb) (l1 l2 : List WriteOp) :
    applyOps db (l1 ++ l2) = applyOps (applyOps db l1) l2 := by
  simp [applyOps, List.foldl_append]

theorem applyOps_messages_const :
    ∀ (ops : List WriteOp), (∀ m, WriteOp.insertMessage m ∉ ops) →
      ∀ db : PgDb, (applyOps db ops).messages = db.messages
  | [], _, _ => rfl
  | op :: rest, hops, db => by
      have hrest : ∀ m, WriteOp.insertMessage m ∉ rest := fun m hm =>
        hops m (List.mem_cons_of_mem _ hm)
      have hstep : (applyOp db op).messages = db.messages := by
        cases op with
        | insertMessage m => exact absurd (List.mem_cons_self _ _) (hops m)
        | upsertHandle h => exact upsertHandle_messages db h
        | upsertChat c => exact upsertChat_messages db c
        | insertChatHandleJoin j => exact insertChatHandleJoin_messages db j
        | insertChatMessageJoin j => exact insertChatMessageJoin_messages db j
        | setWatermark d r => exact updateWatermark_messages db d r
      exact (applyOps_messages_const rest hrest (applyOp db op)).trans hstep

theorem applyOps_handles_const :
    ∀ (ops : List WriteOp), (∀ h, WriteOp.upsertHandle h ∉ ops) →
      ∀ db : PgDb, (applyOps db ops).handles = db.handles
  | [], _, _ => rfl
  | op :: rest, hops, db => by
      have hrest : ∀ h, WriteOp.upsertHandle h ∉ rest := fun h hm =>
        hops h (List.mem_cons_of_mem _ hm)
      have hstep : (applyOp db op).handles = db.handles := by
        cases op with
        | upsertHandle h => exact absurd (List.mem_cons_self _ _) (hops h)
        | upsertChat c => exact upsertChat_handles db c
        | insertMessage m => exact insertMessage_handles db m
        | insertChatHandleJoin j => exact insertChatHandleJoin_handles db j
        | insertChatMessageJoin j => exact insertChatMessageJoin_handles db j
        | setWatermark d r => exact updateWatermark_handles db d r
      exact (applyOps_handles_const rest hrest (applyOp db op)).trans hstep

theorem applyOps_map_insertMessage (batch : List ChatDbMessage) (db : PgDb) :
    applyOps db (batch.map WriteOp.insertMessage) = batch.foldl insertMessage db := by
  simp [applyOps, List.foldl_map, applyOp]

theorem applyOps_map_upsertHandle (hs : List ChatDbHandle) (db : PgDb) :
    applyOps db (hs.map WriteOp.upsertHandle) = hs.foldl upsertHandle db := by
  simp [applyOps, List.foldl_map, applyOp]

/-- After a committed non-empty run the watermark row holds exactly the
converted date and ROWID of the last batch message, whatever it held
before. -/
theorem applyOps_ingestOps_watermark (src : ChatDb) (dst : PgDb)
    {lastMessage : ChatDbMessage}
    (h : (newMessages src dst).getLast? = some lastMessage) :
    getWatermark (applyOps dst (ingestOps src dst)) =
      some ⟨appleToDate lastMessage.date, lastMessage.ROWID⟩ := by
  simp only [ingestOps, h]
  simp [applyOps, List.foldl_append, applyOp, updateWatermark, getWatermark]

/-! ### Effect of the handle upsert on lookups -/

theorem upsertHandle_findHandle_self (db : PgDb) (h : ChatDbHandle) :
    findHandle (upsertHandle db h) h.ROWID =
      some (upsertedHandleRow (findHandle db h.ROWID) h) := by
  unfold upsertHandle
  split
  next hany =>
    simp only [findHandle]
    rw [List.find?_map]
    have hpf : ((fun r : PgHandle => r.original_rowid == h.ROWID) ∘
        (fun r : PgHandle => if r.original_rowid == h.ROWID then
          { r with identifier := h.id, service := h.service,
                   uncanonicalized_id := h.uncanonicalized_id }
        else r)) = (fun r : PgHandle => r.original_rowid == h.ROWID) := by
      funext r
      by_cases hr : r.original_rowid = h.ROWID <;> simp [hr]
    rw [hpf]
    have hsome : (db.handles.find? (fun r => r.original_rowid == h.ROWID)).isSome := by
      rw [List.find?_isSome]
      exact List.any_eq_true.mp hany
    obtain ⟨rf, hrf⟩ := Option.isSome_iff_exists.mp hsome
    have hrfp := List.find?_some hrf
    have hrfeq : rf.original_rowid = h.ROWID := by simpa using hrfp
    simp [findHandle, hrf, upsertedHandleRow, hrfeq]
  next hany =>
    have hnone : db.handles.find? (fun r => r.original_rowid == h.ROWID) = none := by
      rw [List.find?_eq_none]
      intro r hr hp
      exact hany (List.any_eq_true.mpr ⟨r, hr, hp⟩)
    have hfh : findHandle db h.ROWID = none := hnone
    rw [hfh]
    simp only [findHandle]
    rw [List.find?_append, hnone]
    simp [upsertedHandleRow]

theorem upsertHandle_findHandle_other (db : PgDb) (h : ChatDbHandle) (k : Int)
    (hne : h.ROWID ≠ k) :
    findHandle (upsertHandle db h) k = findHandle db k := by
  unfold upsertHandle
  split
  · simp only [findHandle]
    rw [List.find?_map]
    have hpf : ((fun r : PgHandle => r.original_rowid == k) ∘
        (fun r : PgHandle => if r.original_rowid == h.ROWID then
          { r with identifier := h.id, service := h.service,
                   uncanonicalized_id := h.uncanonicalized_id }
        else r)) = (fun r : PgHandle => r.original_rowid == k) := by
      funext r
      by_cases hr : r.original_rowid = h.ROWID <;> simp [hr]
    rw [hpf]
    cases hf : db.handles.find? (fun r => r.original_rowid == k) with
    | none => simp
    | some rf =>
        have hrfp := List.find?_some hf
        have hrfeq : rf.original_rowid = k := by simpa using hrfp
        have hno : ¬ rf.original_rowid = h.ROWID := fun hh =>
          hne ((hh.symm.trans hrfeq))
        simp [hno]
  · simp only [findHandle]
    rw [List.find?_append]
    have hsingle : ([(⟨h.ROWID, h.id, h.service, h.uncanonicalized_id, none⟩ :
        PgHandle)].find? (fun r => r.original_rowid == k)) = none := by
      simp [hne]
    rw [hsingle]
    simp

theorem foldl_upsertHandle_other :
    ∀ (hs : List ChatDbHandle) (db : PgDb) (k : Int),
      (∀ h ∈ hs, h.ROWID ≠ k) →
      findHandle (hs.foldl upsertHandle db) k = findHandle db k
  | [], _, _, _ => rfl
  | h0 :: t, db, k, hk => by
      have ht := foldl_upsertHandle_other t (upsertHandle db h0) k
        (fun h hm => hk h (List.mem_cons_of_mem _ hm))
      have h0k := upsertHandle_findHandle_other db h0 k (hk h0 (List.mem_cons_self _ _))
      simpa [ht] using h0k

theorem foldl_upsertHandle_self :
    ∀ (hs : List ChatDbHandle) (db : PgDb),
      ((hs.map (fun h => h.ROWID)).Nodup) → ∀ h ∈ hs,
      findHandle (hs.foldl upsertHandle db) h.ROWID =
        some (upsertedHandleRow (findHandle db h.ROWID) h)
  | [], _, _, h, hm => absurd hm (List.not_mem_nil h)
  | h0 :: t, db, hnd, h, hm => by
      simp only [List.map_cons, List.nodup_cons] at hnd
      rcases List.mem_cons.mp hm with hh0 | hht
      · rw [hh0]
        have hrest : findHandle (t.foldl upsertHandle (upsertHandle db h0)) h0.ROWID =
            findHandle (upsertHandle db h0) h0.ROWID := by
          apply foldl_upsertHandle_other
          intro h' hm' he
          exact hnd.1 (he ▸ List.mem_map_of_mem (fun x => x.ROWID) hm')
        simpa [hrest] using upsertHandle_findHandle_self db h0
      · have hne : h0.ROWID ≠ h.ROWID := by
          intro he
          exact hnd.1 (he ▸ List.mem_map_of_mem (fun x => x.ROWID) hht)
        have hfirst := upsertHandle_findHandle_other db h0 h.ROWID hne
        have := foldl_upsertHandle_self t (upsertHandle db h0) hnd.2 h hht
        simpa [hfirst] using this

/-! ### Effect of the message insert on lookups -/

theorem insertMessage_findMessage_some {db : PgDb} {k : Int} {pm : PgMessage}
    (h : findMessage db k = some pm) (m : ChatDbMessage) :
    findMessage (insertMessage db m) k = some pm := by
  unfold insertMessage
  split
  · exact h
  · simp only [findMessage] at *
    rw [List.find?_append, h]
    rfl

theorem applyOp_findMessage_some {db : PgDb} {k : Int} {pm : PgMessage}
    (h : findMessage db k = some pm) (op : WriteOp) :
    findMessage (applyOp db op) k = some pm := by
  cases op with
  | insertMessage m => exact insertMessage_findMessage_some h m
  | upsertHandle h' => simpa [findMessage, applyOp, upsertHandle_messages] using h
  | upsertChat c => simpa [findMessage, applyOp, upsertChat_messages] using h
  | insertChatHandleJoin j =>
      simpa [findMessage, applyOp, insertChatHandleJoin_messages] using h
  | insertChatMessageJoin j =>
      simpa [findMessage, applyOp, insertChatMessageJoin_messages] using h
  | setWatermark d r => simpa [findMessage, applyOp, updateWatermark_messages] using h

theorem applyOps_findMessage_some :
    ∀ (ops : List WriteOp) {db : PgDb} {k : Int} {pm : PgMessage},
      findMessage db k = some pm → findMessage (applyOps db ops) k = some pm
  | [], _, _, _, h => h
  | op :: rest, _, _, _, h =>
      applyOps_findMessage_some rest (applyOp_findMessage_some h op)

theorem foldl_insertMessage_length :
    ∀ (batch : List ChatDbMessage) (db : PgDb),
      ((batch.map (fun m => m.ROWID)).Nodup) →
      (batch.foldl insertMessage db).messages.length =
        db.messages.length + batch.countP
          (fun m => !(db.messages.any (fun p => p.original_rowid == m.ROWID)))
  | [], db, _ => by simp
  | m :: t, db, hnd => by
      simp only [List.map_cons, List.nodup_cons] at hnd
      by_cases hp : db.messages.any (fun p => p.original_rowid == m.ROWID) = true
      · have hins : insertMessage db m = db := by
          unfold insertMessage; simp [hp]
        rw [List.foldl_cons, hins, foldl_insertMessage_length t db hnd.2,
          List.countP_cons]
        simp [hp]
      · have hins : insertMessage db m =
            { db with messages := db.messages ++ [toPgMessage m] } := by
          unfold insertMessage; simp [hp]
        rw [List.foldl_cons, hins,
          foldl_insertMessage_length t _ hnd.2, List.countP_cons]
        have hcong : t.countP (fun x =>
              !((db.messages ++ [toPgMessage m]).any
                (fun p => p.original_rowid == x.ROWID))) =
            t.countP (fun x =>
              !(db.messages.any (fun p => p.original_rowid == x.ROWID))) := by
          apply List.countP_congr
          intro x hx
          have hne : m.ROWID ≠ x.ROWID := fun he =>
            hnd.1 (he ▸ List.mem_map_of_mem (fun y => y.ROWID) hx)
          simp [List.any_append, toPgMessage, hne]
        rw [hcong]
        simp only [List.length_append, List.length_singleton]
        simp [hp]
        omega

/-- Only the handle-upsert phase contributes `upsertHandle` statements. -/
theorem mem_ingestOps_upsertHandle {src : ChatDb} {dst : PgDb} {h : ChatDbHandle}
    (hmem : WriteOp.upsertHandle h ∈ ingestOps src dst) :
    h ∈ batchHandles src dst := by
  cases hl : (newMessages src dst).getLast? with
  | none => rw [show ingestOps src dst = [] from by simp [ingestOps, hl]] at hmem; simp at hmem
  | some lastMessage =>
      simp only [ingestOps, hl] at hmem
      simpa using hmem

/-! ### Claim theorems -/

/-- C3: if the transaction raises at any write statement before commit, the
whole run aborts: the committed destination state — every table and the
stored watermark — is exactly the pre-run state, and the error is
rethrown. -/
theorem ingest_rollback_atomicity (src : ChatDb) (dst : PgDb) (k : Nat)
    (hk : k < (ingestOps src dst).length) :
    ingestFromChatDb src dst (some k) = (dst, .error .queryFailed) :=
  ingest_fault_eq src dst k hk

/-- C5: when no source message row is newer than the watermark, the run
leaves the destination untouched for every fault schedule (no transaction is
ever opened, so no statement can even fail), reports zero counts, and
returns the prior watermark (or null when none exists). -/
theorem ingest_fast_path_no_txn (src : ChatDb) (dst : PgDb)
    (hnone : ∀ m ∈ src.messages, m.date ≤ appleWatermark dst) :
    ∀ f : Option Nat,
      ingestFromChatDb src dst f =
        (dst, .ok ⟨0, 0, 0, (getWatermark dst).map (fun w => w.lastMessageDate)⟩) := by
  intro f
  have hempty : newMessages src dst = [] := by
    simp only [newMessages, queryNewMessages]
    rw [show src.messages.filter (fun m => decide (appleWatermark dst < m.date)) = []
      from List.filter_eq_nil_iff.mpr (fun m hm => by simpa using hnone m hm)]
    rfl
  exact ingest_empty_eq src dst f (by simp [hempty])

/-- C8: archived messages are write-once.  Whatever the outcome of a run
(commit, fault-rollback, or empty fast path), a message row already present
in the archive under its natural key is still found unchanged afterwards;
the batch insert's conflict-ignore never overwrites it. -/
theorem messages_write_once (src : ChatDb) (dst : PgDb) (f : Option Nat)
    (k : Int) (pm : PgMessage) (hfound : findMessage dst k = some pm) :
    findMessage (ingestFromChatDb src dst f).1 k = some pm := by
  cases hl : (newMessages src dst).getLast? with
  | none => rw [ingest_empty_eq src dst f hl]; exact hfound
  | some lastMessage =>
      cases hrun : runOps (ingestOps src dst) (Conn.begin ⟨dst, none⟩) 0 f with
      | error c =>
          have hcom := runOps_error_committed _ _ _ _ _ hrun
          simp only [Conn.begin] at hrun hcom
          simp only [ingestFromChatDb, hl, Conn.begin, hrun]
          simpa [Conn.rollback, hcom] using hfound
      | ok c =>
          have hc := runOps_ok_eq _ _ _ _ _ hrun
          have hfold := foldl_write_conn (ingestOps src dst) dst dst
          simp only [Conn.begin] at hrun hc hfold
          simp only [ingestFromChatDb, hl, Conn.begin, hrun]
          rw [hc, hfold]
          simpa [Conn.commit] using
            applyOps_findMessage_some (ingestOps src dst) hfound

/-- C6: for a non-empty batch, the fetched messages are exactly (as a
multiset) the source rows whose raw timestamp strictly exceeds the
source-domain translation of the stored watermark, in ascending timestamp
order; and the run commits a watermark holding the converted timestamp and
source ROWID of the chronologically last message of the batch, alongside the
batch counts. -/
theorem ingest_batch_exact_sorted_watermark (src : ChatDb) (dst : PgDb)
    (hne : newMessages src dst ≠ []) :
    (newMessages src dst).Perm
      (src.messages.filter (fun m => decide (appleWatermark dst < m.date))) ∧
    List.Sorted dateLe (newMessages src dst) ∧
    ∃ lastMessage, (newMessages src dst).getLast? = some lastMessage ∧
      (∀ m ∈ newMessages src dst, m.date ≤ lastMessage.date) ∧
      getWatermark (ingestFromChatDb src dst none).1 =
        some ⟨appleToDate lastMessage.date, lastMessage.ROWID⟩ ∧
      (ingestFromChatDb src dst none).2 =
        .ok ⟨(newMessages src dst).length, (batchHandles src dst).length,
          (batchChats src dst).length, some (appleToDate lastMessage.date)⟩ := by
  refine ⟨List.perm_insertionSort dateLe _, newMessages_sorted src dst, ?_⟩
  have hl : (newMessages src dst).getLast? =
      some ((newMessages src dst).getLast hne) :=
    List.getLast?_eq_getLast _ hne
  refine ⟨_, hl, ?_, ?_, ?_⟩
  · exact fun m hm => sorted_date_le_getLast _ (newMessages_sorted src dst) hne m hm
  · rw [ingest_commit_eq src dst hl]
    exact applyOps_ingestOps_watermark src dst hl
  · rw [ingest_commit_eq src dst hl]

/-- C10: on a first run (no watermark row), the source-domain watermark is
the constant `0`, so the batch is exactly the source rows with raw timestamp
strictly greater than `0`; a message whose raw timestamp is zero or negative
is never part of the batch. -/
theorem first_run_positive_dates_only (src : ChatDb) (dst : PgDb)
    (hnone : getWatermark dst = none) :
    (newMessages src dst).Perm
      (src.messages.filter (fun m => decide (0 < m.date))) ∧
    ∀ m ∈ src.messages, m.date ≤ 0 → m ∉ newMessages src dst := by
  have hw : appleWatermark dst = 0 := by simp [appleWatermark, hnone]
  constructor
  · have hperm := List.perm_insertionSort dateLe
      (src.messages.filter (fun m => decide (appleWatermark dst < m.date)))
    simpa [newMessages, queryNewMessages, hw] using hperm
  · intro m _ hd hmem
    have hgt := (mem_newMessages.mp hmem).2
    rw [hw] at hgt
    exact absurd hd (not_le.mpr hgt)

/-! ### Watermark arithmetic -/

theorem getLast?_mem_list {l : List ChatDbMessage} {a : ChatDbMessage}
    (h : l.getLast? = some a) : a ∈ l := by
  cases l with
  | nil => simp at h
  | cons x t =>
      rw [List.getLast?_eq_getLast _ (by simp)] at h
      have ha : a = (x :: t).getLast (by simp) := by
        injection h.symm
      rw [ha]
      exact List.getLast_mem (by simp)

/-- A date fetched strictly above the translated watermark converts to an
instant strictly above the watermark, provided the watermark is at or after
the source epoch. -/
theorem watermark_advance_bound {w d : ℚ} (hC : APPLE_EPOCH_OFFSET ≤ w)
    (h : dateToApple w < d) :
    w < appleToDate d ∧ APPLE_EPOCH_OFFSET < appleToDate d := by
  have hwC : 0 ≤ w - APPLE_EPOCH_OFFSET := by linarith
  have hw0 : (0:ℚ) ≤ (w - APPLE_EPOCH_OFFSET) * 1000000000 := by positivity
  have h' : (w - APPLE_EPOCH_OFFSET) * 1000000000 < d := by
    simpa [dateToApple, unixToApple] using h
  have hd0 : 0 < d := lt_of_le_of_lt hw0 h'
  by_cases hn : isNanoseconds d
  · have he : appleToDate d = d / 1000000000 + APPLE_EPOCH_OFFSET := by
      simp [appleToDate, appleToUnix, normaliseToSeconds, hn]
    rw [he]
    have h1 : w - APPLE_EPOCH_OFFSET < d / 1000000000 :=
      (lt_div_iff₀ (by norm_num)).mpr h'
    have h2 : 0 < d / 1000000000 := by positivity
    exact ⟨by linarith, by linarith⟩
  · have he : appleToDate d = d + APPLE_EPOCH_OFFSET := by
      simp only [appleToDate, appleToUnix, normaliseToSeconds]
      rw [if_neg (by simpa using hn)]
    rw [he]
    have hstretch : w - APPLE_EPOCH_OFFSET ≤ (w - APPLE_EPOCH_OFFSET) * 1000000000 := by
      nlinarith [mul_nonneg hwC (show (0:ℚ) ≤ 999999999 by norm_num)]
    exact ⟨by linarith, by linarith⟩

/-- A positive date converts to an instant strictly after the source
epoch. -/
theorem appleToDate_gt_epoch {d : ℚ} (hd : 0 < d) :
    APPLE_EPOCH_OFFSET < appleToDate d := by
  by_cases hn : isNanoseconds d
  · have he : appleToDate d = d / 1000000000 + APPLE_EPOCH_OFFSET := by
      simp [appleToDate, appleToUnix, normaliseToSeconds, hn]
    have h2 : 0 < d / 1000000000 := by positivity
    rw [he]
    linarith
  · have he : appleToDate d = d + APPLE_EPOCH_OFFSET := by
      simp only [appleToDate, appleToUnix, normaliseToSeconds]
      rw [if_neg (by simpa using hn)]
    rw [he]
    linarith

/-- C4 (amended): provided the stored watermark's timestamp is at or after
the source epoch instant — which the second conjunct shows is an invariant
the pipeline itself maintains, since it holds after every committed run —
a successful run never decreases the watermark's timestamp.  (The ROWID
component carries the source id of the chronologically last batch message
and can decrease; see the counterexample.) -/
theorem watermark_timestamp_monotonic (src : ChatDb) (dst : PgDb)
    (hC : ∀ w, getWatermark dst = some w → APPLE_EPOCH_OFFSET ≤ w.lastMessageDate) :
    (∀ w, getWatermark dst = some w →
      ∃ w', getWatermark (ingestFromChatDb src dst none).1 = some w' ∧
        w.lastMessageDate ≤ w'.lastMessageDate) ∧
    (∀ w', getWatermark (ingestFromChatDb src dst none).1 = some w' →
      APPLE_EPOCH_OFFSET ≤ w'.lastMessageDate) := by
  cases hl : (newMessages src dst).getLast? with
  | none =>
      rw [ingest_empty_eq src dst none hl]
      exact ⟨fun w hw => ⟨w, hw, le_refl _⟩, fun w' hw' => hC w' hw'⟩
  | some lastMessage =>
      have hwm : getWatermark (ingestFromChatDb src dst none).1 =
          some ⟨appleToDate lastMessage.date, lastMessage.ROWID⟩ := by
        rw [ingest_commit_eq src dst hl]
        exact applyOps_ingestOps_watermark src dst hl
      have hlmem : lastMessage ∈ newMessages src dst := getLast?_mem_list hl
      have hgt : appleWatermark dst < lastMessage.date :=
        (mem_newMessages.mp hlmem).2
      constructor
      · intro w hw
        have hW : appleWatermark dst = dateToApple w.lastMessageDate := by
          simp [appleWatermark, hw]
        rw [hW] at hgt
        have hb := watermark_advance_bound (hC w hw) hgt
        exact ⟨_, hwm, le_of_lt hb.1⟩
      · intro w' hw'
        rw [hwm] at hw'
        have hw'' : w' = ⟨appleToDate lastMessage.date, lastMessage.ROWID⟩ := by
          injection hw' with hinj
          exact hinj.symm
        rw [hw'']
        cases hwd : getWatermark dst with
        | none =>
            have hW : appleWatermark dst = 0 := by simp [appleWatermark, hwd]
            rw [hW] at hgt
            exact le_of_lt (appleToDate_gt_epoch hgt)
        | some w =>
            have hW : appleWatermark dst = dateToApple w.lastMessageDate := by
              simp [appleWatermark, hwd]
            rw [hW] at hgt
            exact le_of_lt (watermark_advance_bound (hC w hwd) hgt).2

/-! ### Phase decomposition of the transaction -/

theorem findHandle_congr {db1 db2 : PgDb} (h : db1.handles = db2.handles)
    (k : Int) : findHandle db1 k = findHandle db2 k := by
  simp [findHandle, h]

theorem ingestOps_decomp (src : ChatDb) (dst : PgDb) {lastMessage : ChatDbMessage}
    (hl : (newMessages src dst).getLast? = some lastMessage) :
    ingestOps src dst = (batchHandles src dst).map WriteOp.upsertHandle ++
      ((batchChats src dst).map WriteOp.upsertChat ++
       ((newMessages src dst).map WriteOp.insertMessage ++
        ((batchChatHandleJoins src dst).map WriteOp.insertChatHandleJoin ++
         ((batchChatMessageJoins src dst).map WriteOp.insertChatMessageJoin ++
          [WriteOp.setWatermark (appleToDate lastMessage.date)
            lastMessage.ROWID])))) := by
  simp [ingestOps, hl, List.append_assoc]

theorem applyOps_handle_phase (hs : List ChatDbHandle) (rest : List WriteOp)
    (hrest : ∀ h, WriteOp.upsertHandle h ∉ rest) (db : PgDb) (k : Int) :
    findHandle (applyOps db (hs.map WriteOp.upsertHandle ++ rest)) k =
      findHandle (hs.foldl upsertHandle db) k := by
  rw [applyOps_append, applyOps_map_upsertHandle]
  exact findHandle_congr (applyOps_handles_const rest hrest _) k

theorem applyOps_message_core (db : PgDb) (A B R : List WriteOp)
    (batch : List ChatDbMessage)
    (hA : ∀ m, WriteOp.insertMessage m ∉ A) (hB : ∀ m, WriteOp.insertMessage m ∉ B)
    (hR : ∀ m, WriteOp.insertMessage m ∉ R)
    (hnd : (batch.map (fun m => m.ROWID)).Nodup) :
    (applyOps db (A ++ (B ++ (batch.map WriteOp.insertMessage ++ R)))).messages.length =
      db.messages.length + batch.countP
        (fun m => !(db.messages.any (fun p => p.original_rowid == m.ROWID))) := by
  rw [applyOps_append, applyOps_append, applyOps_append, applyOps_map_insertMessage]
  rw [applyOps_messages_const R hR]
  rw [foldl_insertMessage_length batch _ hnd]
  have h2 : (applyOps (applyOps db A) B).messages = db.messages :=
    (applyOps_messages_const B hB _).trans (applyOps_messages_const A hA db)
  rw [h2]

theorem mem_batchHandles {src : ChatDb} {dst : PgDb} {h : ChatDbHandle} :
    h ∈ batchHandles src dst ↔
      h ∈ src.handles ∧ h.ROWID ∈ relatedHandleIds (newMessages src dst) := by
  simp [batchHandles, List.mem_filter, List.contains, List.elem_iff]

/-- C7 (amended/corrected): the run fetches and upserts every contact
referenced by a message of the batch, whether or not it is already archived
— an already-archived referenced contact's row is overwritten with the
current source values (key and `display_name` kept).  A contact that no
batch message references is left untouched. -/
theorem contact_frame_and_upsert (src : ChatDb) (dst : PgDb)
    (hnd : (src.handles.map (fun h => h.ROWID)).Nodup) :
    (∀ k : Int, k ∉ relatedHandleIds (newMessages src dst) →
      findHandle (ingestFromChatDb src dst none).1 k = findHandle dst k) ∧
    (∀ h ∈ batchHandles src dst,
      findHandle (ingestFromChatDb src dst none).1 h.ROWID =
        some (upsertedHandleRow (findHandle dst h.ROWID) h)) := by
  cases hl : (newMessages src dst).getLast? with
  | none =>
      have hempty : newMessages src dst = [] := by
        simpa using List.getLast?_eq_none_iff.mp hl
      rw [ingest_empty_eq src dst none hl]
      constructor
      · intro k _; rfl
      · intro h hmem
        rw [mem_batchHandles, hempty] at hmem
        simp [relatedHandleIds] at hmem
  | some lastMessage =>
      have hfinal : ∀ k, findHandle (ingestFromChatDb src dst none).1 k =
          findHandle ((batchHandles src dst).foldl upsertHandle dst) k := by
        intro k
        rw [ingest_commit_eq src dst hl]
        show findHandle (applyOps dst (ingestOps src dst)) k = _
        rw [ingestOps_decomp src dst hl]
        exact applyOps_handle_phase _ _ (by simp) dst k
      constructor
      · intro k hk
        rw [hfinal k]
        apply foldl_upsertHandle_other
        intro h hm he
        exact hk (he ▸ (mem_batchHandles.mp hm).2)
      · intro h hmem
        rw [hfinal h.ROWID]
        exact foldl_upsertHandle_self _ dst
          (List.Nodup.sublist
            (List.Sublist.map _ (List.filter_sublist _)) hnd) h hmem

/-- C9: the `messagesIngested` count of a successful non-empty run is the
number of fetched batch rows — the loop counter increments once per row even
when the conflict-ignore clause skips the insert — while the number of rows
actually added to the archive is the number of batch rows whose natural key
was not already present. -/
theorem messagesIngested_counts_batch_rows (src : ChatDb) (dst : PgDb)
    (hne : newMessages src dst ≠ [])
    (hnd : ((newMessages src dst).map (fun m => m.ROWID)).Nodup) :
    ∃ r, (ingestFromChatDb src dst none).2 = .ok r ∧
      r.messagesIngested = (newMessages src dst).length ∧
      (ingestFromChatDb src dst none).1.messages.length =
        dst.messages.length + (newMessages src dst).countP
          (fun m => !(dst.messages.any (fun p => p.original_rowid == m.ROWID))) := by
  obtain ⟨lastMessage, hl⟩ : ∃ lm, (newMessages src dst).getLast? = some lm :=
    ⟨_, List.getLast?_eq_getLast _ hne⟩
  have heq := ingest_commit_eq src dst hl
  refine ⟨⟨(newMessages src dst).length, (batchHandles src dst).length,
    (batchChats src dst).length, some (appleToDate lastMessage.date)⟩,
    ?_, rfl, ?_⟩
  · rw [heq]
  · rw [heq]
    show (applyOps dst (ingestOps src dst)).messages.length = _
    rw [ingestOps_decomp src dst hl]
    exact applyOps_message_core dst _ _ _ _ (by simp) (by simp) (by simp) hnd

/-! ### Witnesses -/

/-- Witness for C3: a one-message batch with a fault at the first write
statement leaves the empty archive untouched. -/
theorem ingest_rollback_atomicity_witness :
    0 < (ingestOps wSrc3 pgEmpty).length ∧
    ingestFromChatDb wSrc3 pgEmpty (some 0) = (pgEmpty, .error .queryFailed) :=
  ⟨by decide, ingest_rollback_atomicity wSrc3 pgEmpty 0 (by decide)⟩

/-- Witness for C4 at a watermark resting exactly on the source epoch. -/
theorem watermark_timestamp_monotonic_witness :
    ∃ w', getWatermark (ingestFromChatDb wSrc3 wDst4 none).1 = some w' ∧
      (978307200 : ℚ) ≤ w'.lastMessageDate :=
  have hC : ∀ w, getWatermark wDst4 = some w →
      APPLE_EPOCH_OFFSET ≤ w.lastMessageDate := by
    intro w hw
    have hw2 : some (⟨978307200, 1⟩ : Watermark) = some w := hw
    injection hw2 with hinj
    rw [← hinj]
    norm_num [APPLE_EPOCH_OFFSET]
  (watermark_timestamp_monotonic wSrc3 wDst4 hC).1 ⟨978307200, 1⟩ rfl

/-- Witness for C5: a source whose only message is older than the (empty)
watermark takes the fast path even under a fault schedule. -/
theorem ingest_fast_path_no_txn_witness :
    ingestFromChatDb wSrc5 pgEmpty (some 0) = (pgEmpty, .ok ⟨0, 0, 0, none⟩) :=
  ingest_fast_path_no_txn wSrc5 pgEmpty (by decide) (some 0)

/-- Witness for C6 on a two-message batch arriving out of order. -/
theorem ingest_batch_exact_sorted_watermark_witness :
    (newMessages wSrc6 pgEmpty).Perm
      (wSrc6.messages.filter (fun m => decide (appleWatermark pgEmpty < m.date))) ∧
    List.Sorted dateLe (newMessages wSrc6 pgEmpty) ∧
    ∃ lastMessage, (newMessages wSrc6 pgEmpty).getLast? = some lastMessage ∧
      (∀ m ∈ newMessages wSrc6 pgEmpty, m.date ≤ lastMessage.date) ∧
      getWatermark (ingestFromChatDb wSrc6 pgEmpty none).1 =
        some ⟨appleToDate lastMessage.date, lastMessage.ROWID⟩ ∧
      (ingestFromChatDb wSrc6 pgEmpty none).2 =
        .ok ⟨(newMessages wSrc6 pgEmpty).length, (batchHandles wSrc6 pgEmpty).length,
          (batchChats wSrc6 pgEmpty).length, some (appleToDate lastMessage.date)⟩ :=
  ingest_batch_exact_sorted_watermark wSrc6 pgEmpty (by decide)

/-- Witness for C7: the unreferenced key 99 is untouched while the
referenced, already-archived contact 5 is rewritten with source values. -/
theorem contact_frame_and_upsert_witness :
    findHandle (ingestFromChatDb wSrc7 wDst7 none).1 99 = findHandle wDst7 99 ∧
    findHandle (ingestFromChatDb wSrc7 wDst7 none).1 wHandle7.ROWID =
      some (upsertedHandleRow (findHandle wDst7 wHandle7.ROWID) wHandle7) :=
  ⟨(contact_frame_and_upsert wSrc7 wDst7 (by decide)).1 99 (by decide),
   (contact_frame_and_upsert wSrc7 wDst7 (by decide)).2 wHandle7 (by decide)⟩

/-- Witness for C8: a batch message re-using natural key 1 does not disturb
the archived row under that key. -/
theorem messages_write_once_witness :
    findMessage wDst8 1 = some wPgMsg8 ∧
    findMessage (ingestFromChatDb wSrc8 wDst8 none).1 1 = some wPgMsg8 :=
  ⟨by decide, messages_write_once wSrc8 wDst8 none 1 wPgMsg8 (by decide)⟩

/-- Witness for C9: one fetched row that conflicts with an archived row is
counted as ingested although zero rows are added. -/
theorem messagesIngested_counts_batch_rows_witness :
    ∃ r, (ingestFromChatDb wSrc8 wDst8 none).2 = .ok r ∧
      r.messagesIngested = (newMessages wSrc8 wDst8).length ∧
      (ingestFromChatDb wSrc8 wDst8 none).1.messages.length =
        wDst8.messages.length + (newMessages wSrc8 wDst8).countP
          (fun m => !(wDst8.messages.any (fun p => p.original_rowid == m.ROWID))) :=
  messagesIngested_counts_batch_rows wSrc8 wDst8 (by decide) (by decide)

/-- Witness for C10 on a first-run source holding a zero, a negative and a
positive timestamp. -/
theorem first_run_positive_dates_only_witness :
    (newMessages wSrc10 pgEmpty).Perm
      (wSrc10.messages.filter (fun m => decide (0 < m.date))) ∧
    ∀ m ∈ wSrc10.messages, m.date ≤ 0 → m ∉ newMessages wSrc10 pgEmpty :=
  first_run_positive_dates_only wSrc10 pgEmpty rfl

/-! ### Counterexamples -/

/-- Counterexample to C4 as stated: two consecutive successful runs — the
first ingests message 50 (nanosecond date `2·10^12`), the second ingests the
later message 7 (date `3·10^12`), both sent by the source handle 9 which is
upserted before each message insert, so every destination constraint is
satisfied and both transactions commit — store watermark source ids 50 then
7: the rowid component of the watermark strictly decreases across successful
runs.  (The timestamp component increases, 978309200 to 978310200.) -/
theorem watermark_monotonic_counterexample :
    (ingestFromChatDb cexSrc1 pgEmpty none).2 = .ok ⟨1, 1, 0, some 978309200⟩ ∧
    getWatermark (ingestFromChatDb cexSrc1 pgEmpty none).1 =
      some ⟨978309200, 50⟩ ∧
    (ingestFromChatDb cexSrc2 (ingestFromChatDb cexSrc1 pgEmpty none).1 none).2 =
      .ok ⟨1, 1, 0, some 978310200⟩ ∧
    getWatermark
        (ingestFromChatDb cexSrc2 (ingestFromChatDb cexSrc1 pgEmpty none).1 none).1 =
      some ⟨978310200, 7⟩ ∧
    (7 : Int) < 50 := by
  have hl1 : (newMessages cexSrc1 pgEmpty).getLast? = some cexMsgA := by decide
  have hr1 := ingest_commit_eq cexSrc1 pgEmpty hl1
  have hw1 : getWatermark (ingestFromChatDb cexSrc1 pgEmpty none).1 =
      some ⟨appleToDate cexMsgA.date, cexMsgA.ROWID⟩ := by
    rw [hr1]
    exact applyOps_ingestOps_watermark cexSrc1 pgEmpty hl1
  have hd1 : appleToDate cexMsgA.date = 978309200 := by
    norm_num [cexMsgA, mkMsg, appleToDate, appleToUnix, normaliseToSeconds,
      isNanoseconds, NANO_THRESHOLD, APPLE_EPOCH_OFFSET]
  have haw : appleWatermark (ingestFromChatDb cexSrc1 pgEmpty none).1 =
      2000000000000 := by
    simp only [appleWatermark, hw1, hd1]
    norm_num [dateToApple, unixToApple, APPLE_EPOCH_OFFSET]
  have h2 : newMessages cexSrc2 (ingestFromChatDb cexSrc1 pgEmpty none).1 =
      [cexMsgB] := by
    simp only [newMessages, queryNewMessages]
    rw [haw]
    decide
  have hl2 : (newMessages cexSrc2
      (ingestFromChatDb cexSrc1 pgEmpty none).1).getLast? = some cexMsgB := by
    rw [h2]; rfl
  have hr2 := ingest_commit_eq cexSrc2 (ingestFromChatDb cexSrc1 pgEmpty none).1 hl2
  have hw2 : getWatermark
      (ingestFromChatDb cexSrc2 (ingestFromChatDb cexSrc1 pgEmpty none).1 none).1 =
      some ⟨appleToDate cexMsgB.date, cexMsgB.ROWID⟩ := by
    rw [hr2]
    exact applyOps_ingestOps_watermark cexSrc2 _ hl2
  have hd2 : appleToDate cexMsgB.date = 978310200 := by
    norm_num [cexMsgB, mkMsg, appleToDate, appleToUnix, normaliseToSeconds,
      isNanoseconds, NANO_THRESHOLD, APPLE_EPOCH_OFFSET]
  refine ⟨?_, ?_, ?_, ?_, by norm_num⟩
  · rw [hr1]
    have hlen : newMessages cexSrc1 pgEmpty = [cexMsgA] := by decide
    have hbh : batchHandles cexSrc1 pgEmpty = [cexHandle] := by decide
    have hbc : batchChats cexSrc1 pgEmpty = [] := by decide
    simp [hlen, hbh, hbc, hd1]
  · rw [hw1, hd1]
    rfl
  · rw [hr2]
    have hbh2 : batchHandles cexSrc2 (ingestFromChatDb cexSrc1 pgEmpty none).1 =
        [cexHandle] := by
      simp only [batchHandles]
      rw [h2]
      decide
    have hbc2 : batchChats cexSrc2 (ingestFromChatDb cexSrc1 pgEmpty none).1 = [] := by
      simp [batchChats, cexSrc2]
    simp [h2, hbh2, hbc2, hd2]
  · rw [hw2, hd2]
    rfl

/-- Counterexample to C7 as stated: the archive already holds contact 5 with
identifier "a" and service "iMessage"; the source snapshot now carries
identifier "b" (same non-null service) for that contact, and a new message
references it, so the upsert and the message insert satisfy every
destination constraint and the run commits.  The run fetches and upserts
that already-archived contact — its row changes to identifier "b" and it is
counted in `handlesUpserted` — contradicting "only genuinely new contacts
are fetched and upserted" and "the already-archived contact's row is left
untouched". -/
theorem contact_untouched_counterexample :
    findHandle wDst7 5 = some ⟨5, "a", some "iMessage", none, none⟩ ∧
    findHandle (ingestFromChatDb wSrc7 wDst7 none).1 5 =
      some ⟨5, "b", some "iMessage", none, none⟩ ∧
    (ingestFromChatDb wSrc7 wDst7 none).2 = .ok ⟨1, 1, 0, some 978307205⟩ := by
  have hl : (newMessages wSrc7 wDst7).getLast? = some wMsg7 := by decide
  have hr := ingest_commit_eq wSrc7 wDst7 hl
  have hd : appleToDate wMsg7.date = 978307205 := by
    norm_num [wMsg7, mkMsg, appleToDate, appleToUnix, normaliseToSeconds,
      isNanoseconds, NANO_THRESHOLD, APPLE_EPOCH_OFFSET]
  refine ⟨by decide, ?_, ?_⟩
  · have hfh : findHandle (ingestFromChatDb wSrc7 wDst7 none).1 5 =
        findHandle ((batchHandles wSrc7 wDst7).foldl upsertHandle wDst7) 5 := by
      rw [hr]
      show findHandle (applyOps wDst7 (ingestOps wSrc7 wDst7)) 5 = _
      rw [ingestOps_decomp wSrc7 wDst7 hl]
      exact applyOps_handle_phase _ _ (by simp) wDst7 5
    rw [hfh]
    decide
  · rw [hr]
    have hlen : newMessages wSrc7 wDst7 = [wMsg7] := by decide
    have hbh : batchHandles wSrc7 wDst7 = [wHandle7] := by decide
    have hbc : batchChats wSrc7 wDst7 = [] := by decide
    simp [hlen, hbh, hbc, hd]

end ChatPulse
